import Mathlib

/-!
Verification of the `cascade` repository's schema-migration core
(`app_python/app/db/init_db.py`) and of the collaborator DAO's search
fallback (`app_python/app/services/dao.py`), as a shallow embedding.

Modelling conventions:
* Machine integers are `Nat` with explicit `% 2 ^ 32` where the source's
  SHA-256 arithmetic wraps.
* The SQLite store is modelled as a `Store` record: the engine capability
  flag (`fts5`), whether a table named `__fts5_check` currently exists
  (`probeTable`), the `schema_migrations` table (`ledger`, `none` when the
  table does not exist), and an abstract application schema (`schema`).
* A migration script's statement-level semantics is a parameter
  `interp : String → List (Schema → Option Schema)`: the list of SQL
  statements SQLite parses out of the script text, each one a partial
  state transformer (`none` = the statement raises an error).
* `conn.executescript(sql_text)` is modelled after the documented CPython
  `sqlite3` behaviour: an implicit COMMIT of any pending transaction is
  issued first, and *no other implicit transaction control is performed* —
  the script runs in autocommit mode, so each successful statement is
  durably committed on its own, and a failing statement leaves all earlier
  statements of the same script committed.  (The source's comment claims
  executescript runs the statements "within an implicit transaction",
  which is not what the library does.)
* Durable on-disk states are collected in traces (`List (Store Schema)`):
  one entry per committed point (each autocommitted script statement, the
  probe create/drop, table creation, and each `conn.commit()`).
* `datetime.utcnow()` is a parameter `clock : Nat → String` indexed by the
  number of migrations applied so far in the run.
* File-system directories are association lists `List (String × String)`
  of (file name, file content); a real directory has no duplicate names.
  The content string stands for the result of the source's text-mode read
  `open(path, "r", encoding="utf-8")` of the file, which is NOT the raw
  byte content: it is the UTF-8 decode with universal-newline translation
  applied ("\r\n" and lone "\r" become "\n").  The byte-level read is
  modelled separately by `utf8Decode` / `univNewlines` / `readSqlText`,
  and `file_checksum` is the fingerprint the program derives from a
  file's raw bytes.
-/

namespace InitDb

/-! ### SHA-256 (`hashlib.sha256(...).hexdigest()`), over byte lists -/

def M32 : Nat := 4294967296

def rotr (n x : Nat) : Nat := ((x >>> n) ||| (x <<< (32 - n))) % M32

def sumA (x : Nat) : Nat := (rotr 2 x) ^^^ (rotr 13 x) ^^^ (rotr 22 x)

def sumE (x : Nat) : Nat := (rotr 6 x) ^^^ (rotr 11 x) ^^^ (rotr 25 x)

def sprA (x : Nat) : Nat := (rotr 7 x) ^^^ (rotr 18 x) ^^^ (x >>> 3)

def sprE (x : Nat) : Nat := (rotr 17 x) ^^^ (rotr 19 x) ^^^ (x >>> 10)

def chF (x y z : Nat) : Nat := (x &&& y) ^^^ ((x ^^^ 4294967295) &&& z)

def majF (x y z : Nat) : Nat := (x &&& y) ^^^ (x &&& z) ^^^ (y &&& z)

def shaK : List Nat :=
  [1116352408, 1899447441, 3049323471, 3921009573,
   961987163, 1508970993, 2453635748, 2870763221,
   3624381080, 310598401, 607225278, 1426881987,
   1925078388, 2162078206, 2614888103, 3248222580,
   3835390401, 4022224774, 264347078, 604807628,
   770255983, 1249150122, 1555081692, 1996064986,
   2554220882, 2821834349, 2952996808, 3210313671,
   3336571891, 3584528711, 113926993, 338241895,
   666307205, 773529912, 1294757372, 1396182291,
   1695183700, 1986661051, 2177026350, 2456956037,
   2730485921, 2820302411, 3259730800, 3345764771,
   3516065817, 3600352804, 4094571909, 275423344,
   430227734, 506948616, 659060556, 883997877,
   958139571, 1322822218, 1537002063, 1747873779,
   1955562222, 2024104815, 2227730452, 2361852424,
   2428436474, 2756734187, 3204031479, 3329325298]

def shaH0 : List Nat :=
  [1779033703, 3144134277, 1013904242, 2773480762,
   1359893119, 2600822924, 528734635, 1541459225]

/-- Big-endian byte rendering of `v` in exactly `w` bytes. -/
def beBytes : Nat → Nat → List Nat
  | 0, _ => []
  | w+1, v => beBytes w (v / 256) ++ [v % 256]

/-- SHA-256 padding: append `0x80`, zero bytes up to 56 mod 64, then the
bit length as 8 big-endian bytes. -/
def padMsg (msg : List Nat) : List Nat :=
  let L := msg.length
  let zeros := (120 - ((L + 1) % 64)) % 64
  msg ++ [128] ++ List.replicate zeros 0 ++ beBytes 8 (8 * L)

/-- Chunk a byte list into 64-byte blocks (accumulator kept reversed). -/
def chunkAux : List Nat → List Nat → List (List Nat)
  | cur, [] => if cur.isEmpty then [] else [cur.reverse]
  | cur, b :: rest =>
    if cur.length == 63 then ((b :: cur).reverse) :: chunkAux [] rest
    else chunkAux (b :: cur) rest

def chunk64 (l : List Nat) : List (List Nat) := chunkAux [] l

/-- Big-endian 32-bit words from a byte list. -/
def beWords : List Nat → List Nat
  | b0 :: b1 :: b2 :: b3 :: rest => (((b0 * 256 + b1) * 256 + b2) * 256 + b3) :: beWords rest
  | _ => []

def stepW (w : List Nat) : List Nat :=
  let n := w.length
  w ++ [(sprE (w.getD (n - 2) 0) + w.getD (n - 7) 0 + sprA (w.getD (n - 15) 0) + w.getD (n - 16) 0) % M32]

def extendW : Nat → List Nat → List Nat
  | 0, w => w
  | k+1, w => extendW k (stepW w)

def compressRound (wt kt : Nat) (st : List Nat) : List Nat :=
  match st with
  | [a, b, c, d, e, f, g, h] =>
    let t1 := (h + sumE e + chF e f g + kt + wt) % M32
    let t2 := (sumA a + majF a b c) % M32
    [(t1 + t2) % M32, a, b, c, (d + t1) % M32, e, f, g]
  | other => other

def compressBlock (h : List Nat) (block : List Nat) : List Nat :=
  let w := extendW 48 (beWords block)
  let st := (w.zip shaK).foldl (fun st p => compressRound p.1 p.2 st) h
  (h.zip st).map (fun p => (p.1 + p.2) % M32)

def sha256Words (msg : List Nat) : List Nat :=
  (chunk64 (padMsg msg)).foldl compressBlock shaH0

/-- The SHA-256 digest of a byte list, as a 256-bit number. -/
def sha256Nat (msg : List Nat) : Nat :=
  (sha256Words msg).foldl (fun acc w => acc * M32 + w) 0

/-- UTF-8 encoding of a Unicode scalar value (`str.encode("utf-8")`,
per character). -/
def utf8EncodeCharNat (c : Nat) : List Nat :=
  if c < 128 then [c]
  else if c < 2048 then [192 ||| (c >>> 6), 128 ||| (c &&& 63)]
  else if c < 65536 then [224 ||| (c >>> 12), 128 ||| ((c >>> 6) &&& 63), 128 ||| (c &&& 63)]
  else [240 ||| (c >>> 18), 128 ||| ((c >>> 12) &&& 63), 128 ||| ((c >>> 6) &&& 63), 128 ||| (c &&& 63)]

/-- The UTF-8 byte content of a string (`sql_text.encode("utf-8")`). -/
def utf8Bytes (s : String) : List Nat :=
  s.data.foldr (fun c acc => utf8EncodeCharNat c.toNat ++ acc) []

def hexAlphabet : List Char := "0123456789abcdef".data

/-- Fixed-width lowercase hex rendering, `w` digits, big-endian. -/
def toHexFixed : Nat → Nat → List Char
  | 0, _ => []
  | w+1, v => toHexFixed w (v / 16) ++ [hexAlphabet.getD (v % 16) '0']

/-- `compute_checksum` (init_db.py line 20): lowercase hex SHA-256 digest
of the UTF-8 bytes of the script text. -/
def compute_checksum (s : String) : String :=
  String.mk (toHexFixed 64 (sha256Nat (utf8Bytes s)))

/-- Universal-newline translation performed by Python's text-mode read
(`open(path, "r", encoding="utf-8")`, newline=None): "\r\n" and lone
"\r" are both translated to "\n" in the string `fh.read()` returns. -/
def univNewlines : List Char → List Char
  | [] => []
  | '\r' :: '\n' :: rest => '\n' :: univNewlines rest
  | '\r' :: rest => '\n' :: univNewlines rest
  | c :: rest => c :: univNewlines rest

/-- Strict UTF-8 decoding of raw file bytes (the `encoding="utf-8"` part
of the text-mode read); `none` models `UnicodeDecodeError` (truncated or
ill-formed sequences, overlong forms, surrogates, out-of-range code
points). -/
def utf8Decode : List Nat → Option (List Char)
  | [] => some []
  | b1 :: rest =>
    if b1 < 128 then
      (utf8Decode rest).map (fun cs => Char.ofNat b1 :: cs)
    else if b1 < 194 then none
    else if b1 < 224 then
      match rest with
      | b2 :: rest2 =>
        if 128 ≤ b2 ∧ b2 < 192 then
          (utf8Decode rest2).map (fun cs => Char.ofNat ((b1 - 192) * 64 + (b2 - 128)) :: cs)
        else none
      | _ => none
    else if b1 < 240 then
      match rest with
      | b2 :: b3 :: rest3 =>
        if 128 ≤ b2 ∧ b2 < 192 ∧ 128 ≤ b3 ∧ b3 < 192 then
          let cp := (b1 - 224) * 4096 + (b2 - 128) * 64 + (b3 - 128)
          if 2048 ≤ cp ∧ ¬ (55296 ≤ cp ∧ cp < 57344) then
            (utf8Decode rest3).map (fun cs => Char.ofNat cp :: cs)
          else none
        else none
      | _ => none
    else if b1 < 245 then
      match rest with
      | b2 :: b3 :: b4 :: rest4 =>
        if 128 ≤ b2 ∧ b2 < 192 ∧ 128 ≤ b3 ∧ b3 < 192 ∧ 128 ≤ b4 ∧ b4 < 192 then
          let cp := (b1 - 240) * 262144 + (b2 - 128) * 4096 + (b3 - 128) * 64 + (b4 - 128)
          if 65536 ≤ cp ∧ cp < 1114112 then
            (utf8Decode rest4).map (fun cs => Char.ofNat cp :: cs)
          else none
        else none
      | _ => none
    else none

/-- The text-mode read of a change-set file (init_db.py line 60,
`open(path, "r", encoding="utf-8")` then `fh.read()`): UTF-8 decode the
raw bytes, then apply universal-newline translation.  This is the
`sql_text` the runner checksums and executes — not the exact byte
content of the file. -/
def readSqlText (bytes : List Nat) : Option String :=
  (utf8Decode bytes).map (fun cs => String.mk (univNewlines cs))

/-- The fingerprint the program derives from a change-set file's raw
bytes: `compute_checksum` of the text-mode read (`none` when the file is
not valid UTF-8 and the run dies in the decoder instead). -/
def file_checksum (bytes : List Nat) : Option String :=
  (readSqlText bytes).map compute_checksum

/-! ### The store model -/

/-- One row of `schema_migrations`: `(id, checksum, applied_at)`. -/
abbrev Row := String × String × String

/-- A SQLite database file together with its engine capability.
`probeTable` records whether a table named `__fts5_check` exists;
`ledger = none` means the `schema_migrations` table does not exist. -/
structure Store (Schema : Type) where
  fts5 : Bool
  probeTable : Bool
  ledger : Option (List Row)
  schema : Schema
deriving DecidableEq

/-- The rows of `schema_migrations` (empty when the table is absent). -/
def ledgerEntries {Schema : Type} (s : Store Schema) : List Row := s.ledger.getD []

/-- Result of the FTS5 capability probe. -/
inductive PreflightResult (Schema : Type) where
  | ok (durables : List (Store Schema)) (store : Store Schema)
  | missing
deriving DecidableEq

/-- `CREATE VIRTUAL TABLE IF NOT EXISTS __fts5_check USING fts5(x);` —
fails (OperationalError) exactly when the engine lacks FTS5; on success
the table named `__fts5_check` exists afterwards. -/
def create_probe {Schema : Type} (s : Store Schema) : Option (Store Schema) :=
  if s.fts5 then some { s with probeTable := true } else none

/-- `DROP TABLE __fts5_check;` -/
def drop_probe {Schema : Type} (s : Store Schema) : Store Schema :=
  { s with probeTable := false }

/-- `assert_fts5_available` (init_db.py lines 47-53): create the probe
table, then drop it; on OperationalError raise RuntimeError (modelled as
`missing`).  Both executed statements autocommit, so each is a durable
state. -/
def assert_fts5_available {Schema : Type} (s : Store Schema) : PreflightResult Schema :=
  match create_probe s with
  | some s1 => .ok [s1, drop_probe s1] (drop_probe s1)
  | none => .missing

/-- `ensure_schema_migrations` (init_db.py lines 23-31):
`CREATE TABLE IF NOT EXISTS schema_migrations(...)` followed by a commit. -/
def ensure_schema_migrations {Schema : Type} (s : Store Schema) : Store Schema :=
  match s.ledger with
  | some _ => s
  | none => { s with ledger := some [] }

/-- `get_applied` (init_db.py lines 33-35) builds a dict id → (checksum,
applied_at); row ids are unique (primary key), modelled by first-match
lookup. -/
def lookupApplied (rows : List Row) (id : String) : Option (String × String) :=
  (rows.find? (fun r => r.1 == id)).map (fun r => r.2)

/-- Code-point lexicographic comparison of char lists, the order Python
uses to sort `str` file names (for UTF-8 names it coincides with
byte-wise order).  Agrees with `List.le` / `String.le`, see
`leChars_le`. -/
def leChars : List Char → List Char → Bool
  | [], _ => true
  | c1 :: r1, l2 =>
    match l2 with
    | [] => false
    | c2 :: r2 => if c1 < c2 then true else if c2 < c1 then false else leChars r1 r2

/-- Insert into a sorted list, before the first element not below `a`. -/
def insertLe {α : Type} (le : α → α → Bool) (a : α) : List α → List α
  | [] => [a]
  | b :: l => if le a b then a :: b :: l else b :: insertLe le a l

/-- Stable insertion sort; Python's `list.sort()` is also a stable sort,
so on duplicate-free keys the two agree exactly. -/
def sortLe {α : Type} (le : α → α → Bool) : List α → List α
  | [] => []
  | a :: l => insertLe le a (sortLe le l)

/-- `str.lower()`, per character (ASCII case mapping suffices for the
".sql" suffix test). -/
def strToLower (s : String) : String := String.mk (s.data.map Char.toLower)

/-- `str.endswith(suffix)`. -/
def strEndsWith (s suffix : String) : Bool := suffix.data.isSuffixOf s.data

/-- `str.strip()`: drop whitespace from both ends. -/
def strTrim (s : String) : String :=
  String.mk (((s.data.dropWhile Char.isWhitespace).reverse.dropWhile Char.isWhitespace).reverse)

/-- `iter_sql_files` (init_db.py lines 55-61): keep the names whose
lowercasing ends in ".sql", sort them lexicographically by name, and
pair each name with the file's content as the text-mode read delivers
it — the content strings of `dir` stand for `readSqlText` of the raw
file bytes (UTF-8 decoded, newlines translated), since that is the
`sql_text` every downstream consumer sees. -/
def iter_sql_files (dir : List (String × String)) : List (String × String) :=
  sortLe (fun a b => leChars a.1.data b.1.data)
    (dir.filter (fun f => strEndsWith (strToLower f.1) ".sql"))

/-- Outcome of the classification loop in `main` (init_db.py lines
94-105): either the first drifted migration (with its stored and fresh
checksums — the run exits 1 there), or the pending list in file order. -/
inductive Classified where
  | drift (id stored computed : String)
  | pending (files : List (String × String))
deriving DecidableEq

/-- The classification loop of `main` (init_db.py lines 94-105): walk the
sorted files; an id present in the ledger with a different checksum stops
the run (sys.exit(1)); a matching id is skipped; an unknown id is
appended to the pending list. -/
def classify_migrations (applied : List Row) : List (String × String) → Classified
  | [] => .pending []
  | (id, text) :: rest =>
    let c := compute_checksum text
    match lookupApplied applied id with
    | some (old, _) =>
      if old = c then classify_migrations applied rest
      else .drift id old c
    | none =>
      match classify_migrations applied rest with
      | .drift a b c => .drift a b c
      | .pending p => .pending ((id, text) :: p)

/-- `conn.executescript(sql_text)` in autocommit mode: run the parsed
statements in order; each successful statement is durably committed on
its own (the returned list holds the schema after each commit); a failing
statement stops the script, leaving the earlier statements committed.
Returns (durable schemas, final schema, whether the whole script ran). -/
def runStmtsTrace {Schema : Type} :
    List (Schema → Option Schema) → Schema → List Schema × Schema × Bool
  | [], sch => ([], sch, true)
  | f :: rest, sch =>
    match f sch with
    | none => ([], sch, false)
    | some sch' =>
      let r := runStmtsTrace rest sch'
      (sch' :: r.1, r.2.1, r.2.2)

/-- `apply_migration` (init_db.py lines 63-70): `executescript` the
script (autocommit, see `runStmtsTrace`), then INSERT the ledger row and
commit.  The INSERT raises IntegrityError if the id is already present
(primary key); the failed transaction holds only the INSERT, so the
schema effects stay.  Returns (durable states, final state, success). -/
def apply_migration {Schema : Type} (interp : String → List (Schema → Option Schema))
    (now : String) (s : Store Schema) (mig_id text : String) :
    List (Store Schema) × Store Schema × Bool :=
  let r := runStmtsTrace (interp text) s.schema
  let durables := r.1.map (fun sch => { s with schema := sch })
  if r.2.2 then
    if (ledgerEntries s).any (fun row => row.1 == mig_id) then
      (durables, { s with schema := r.2.1 }, false)
    else
      let committed : Store Schema :=
        { s with schema := r.2.1, ledger := some (ledgerEntries s ++ [(mig_id, compute_checksum text, now)]) }
      (durables ++ [committed], committed, true)
  else (durables, { s with schema := r.2.1 }, false)

/-- The apply loop of `main` (init_db.py lines 119-122): apply each
pending migration in order; an unhandled exception stops the run at the
failing id, and later migrations are never attempted.  Returns (durable
states, final state, applied ids, failing id if any). -/
def applyList {Schema : Type} (interp : String → List (Schema → Option Schema))
    (clock : Nat → String) :
    List (String × String) → Store Schema → Nat →
      List (Store Schema) × Store Schema × List String × Option String
  | [], s, _ => ([], s, [], none)
  | (id, t) :: rest, s, k =>
    let r := apply_migration interp (clock k) s id t
    if r.2.2 then
      let r2 := applyList interp clock rest r.2.1 (k + 1)
      (r.1 ++ r2.1, r2.2.1, id :: r2.2.2.1, r2.2.2.2)
    else (r.1, r.2.1, [], some id)

/-- Whether every migration of the list applies without error, in order. -/
def applySucceeds {Schema : Type} (interp : String → List (Schema → Option Schema))
    (clock : Nat → String) :
    List (String × String) → Store Schema → Nat → Bool
  | [], _, _ => true
  | (id, t) :: rest, s, k =>
    (apply_migration interp (clock k) s id t).2.2 &&
      applySucceeds interp clock rest (apply_migration interp (clock k) s id t).2.1 (k + 1)

/-- The store reached after applying the list in order (the state at
which the next migration's apply would begin). -/
def applyOkStore {Schema : Type} (interp : String → List (Schema → Option Schema))
    (clock : Nat → String) :
    List (String × String) → Store Schema → Nat → Store Schema
  | [], s, _ => s
  | (id, t) :: rest, s, k =>
    applyOkStore interp clock rest (apply_migration interp (clock k) s id t).2.1 (k + 1)

/-- The ledger rows a fully successful apply of the list appends. -/
def entriesOf (clock : Nat → String) : List (String × String) → Nat → List Row
  | [], _ => []
  | (id, t) :: rest, k => (id, compute_checksum t, clock k) :: entriesOf clock rest (k + 1)

/-- Observable outcome of one run of `main` (exit status and printed
report): `capabilityMissing` and `drift` and `execFailure` exit non-zero,
the rest exit zero. -/
inductive RunResult where
  | capabilityMissing
  | drift (id stored computed : String)
  | upToDate
  | dryRun (ids : List String)
  | execFailure (appliedIds : List String) (failedId : String)
  | success (appliedIds : List String)
deriving DecidableEq

/-- `main` (init_db.py lines 72-127): pragmas (no modelled effect), FTS5
preflight, ensure the ledger table, read the ledger, classify the sorted
candidate files, then report (dry run) or apply the pending list in
order.  Returns (final store, outcome, durable states after the ones of
`s0`). -/
def main {Schema : Type} (interp : String → List (Schema → Option Schema))
    (clock : Nat → String) (dry_run : Bool) (dir : List (String × String))
    (s0 : Store Schema) : Store Schema × RunResult × List (Store Schema) :=
  match assert_fts5_available s0 with
  | .missing => (s0, .capabilityMissing, [])
  | .ok ptr s1 =>
    let s2 := ensure_schema_migrations s1
    let applied := ledgerEntries s2
    let files := iter_sql_files dir
    match classify_migrations applied files with
    | .drift id old c => (s2, .drift id old c, ptr ++ [s2])
    | .pending pending =>
      if pending.isEmpty then (s2, .upToDate, ptr ++ [s2])
      else if dry_run then (s2, .dryRun (pending.map (fun p => p.1)), ptr ++ [s2])
      else
        let r := applyList interp clock pending s2 0
        match r.2.2.2 with
        | some f => (r.2.1, .execFailure r.2.2.1 f, ptr ++ [s2] ++ r.1)
        | none => (r.2.1, .success r.2.2.1, ptr ++ [s2] ++ r.1)

end InitDb

namespace Dao

/-- The two query shapes `search_cards` can issue: the FTS5 MATCH join
and the LIKE scan (dao.py lines 81-103), with the bound pattern. -/
inductive SearchEv where
  | ftsQuery (pattern : String)
  | likeQuery (pattern : String)
deriving DecidableEq

/-- The card database as seen by `search_cards`: the FTS5 query (LIMIT /
OFFSET applied inside) returns `none` when sqlite3 raises
OperationalError (FTS table missing or MATCH syntax error), and the LIKE
query always returns rows. -/
structure CardDB (RowT : Type) where
  fts : String → Nat → Nat → Option (List RowT)
  like : String → Nat → Nat → List RowT

/-- `search_cards` (dao.py lines 68-104): strip the query; use FTS5 only
when the stripped length is at least 3; on OperationalError or an empty
FTS result fall through to the LIKE scan.  Also returns the list of
queries issued, in order. -/
def search_cards {RowT : Type} (db : CardDB RowT) (q : String) (limit offset : Nat) :
    List RowT × List SearchEv :=
  let q := InitDb.strTrim q
  if 3 ≤ q.length then
    match db.fts (q ++ "*") limit offset with
    | some rows =>
      if rows.isEmpty then
        (db.like ("%" ++ q ++ "%") limit offset,
         [.ftsQuery (q ++ "*"), .likeQuery ("%" ++ q ++ "%")])
      else (rows, [.ftsQuery (q ++ "*")])
    | none =>
      (db.like ("%" ++ q ++ "%") limit offset,
       [.ftsQuery (q ++ "*"), .likeQuery ("%" ++ q ++ "%")])
  else (db.like ("%" ++ q ++ "%") limit offset, [.likeQuery ("%" ++ q ++ "%")])

end Dao

namespace Ex

open InitDb Dao

/-- Concrete script semantics used to run the model on closed inputs:
"good" is a one-statement script whose statement succeeds, "part" is a
two-statement script whose second statement raises, "never" is a
one-statement script that succeeds.  The schema is a log of the effects
of committed statements. -/
def interpEx : String → List (List Nat → Option (List Nat)) := fun t =>
  if t = "good" then [fun s => some (1 :: s)]
  else if t = "part" then [fun s => some (2 :: s), fun _ => none]
  else if t = "never" then [fun s => some (3 :: s)]
  else []

def clockEx : Nat → String := fun k => Nat.repr k

def dirC1 : List (String × String) :=
  [("0001.sql", "good"), ("0002.sql", "part"), ("0003.sql", "never")]

def dirOne : List (String × String) := [("0001.sql", "good")]

def dirTwo : List (String × String) := [("0001.sql", "good"), ("0002.sql", "never")]

def dirDrift : List (String × String) := [("0001.sql", "x")]

/-- A fresh store: FTS5 available, no probe table, no `schema_migrations`
table yet, empty schema. -/
def s0Fresh : Store (List Nat) := ⟨true, false, none, []⟩

/-- A store whose `schema_migrations` table exists and is empty. -/
def s0Led : Store (List Nat) := ⟨true, false, some [], []⟩

/-- A store that already recorded "0001.sql" with a checksum that cannot
match the current file content. -/
def s0Drift : Store (List Nat) := ⟨true, false, some [("0001.sql", "deadbeef", "t0")], []⟩

/-- A store that already contains a user table named `__fts5_check`. -/
def sProbe : Store (List Nat) := ⟨true, true, none, []⟩

/-- A store whose engine lacks FTS5. -/
def sNoFts : Store (List Nat) := ⟨false, false, none, []⟩

/-- The raw bytes of a change-set file reading "SELECT 1;" with a CRLF
(Windows) line ending. -/
def crlfFile : List Nat := [83, 69, 76, 69, 67, 84, 32, 49, 59, 13, 10]

/-- The raw bytes of a change-set file reading "SELECT 1;" with an LF
(Unix) line ending — byte-distinct from `crlfFile`. -/
def lfFile : List Nat := [83, 69, 76, 69, 67, 84, 32, 49, 59, 10]

/-- A card database whose FTS query always raises OperationalError and
whose LIKE scan returns one row. -/
def dbNoFts : CardDB Nat := ⟨fun _ _ _ => none, fun _ _ _ => [7]⟩

/-- A card database whose FTS query succeeds but returns zero rows. -/
def dbEmptyFts : CardDB Nat := ⟨fun _ _ _ => some [], fun _ _ _ => [7]⟩

end Ex

namespace InitDb

/-! ### Helper lemmas: the digest function -/

theorem toHexFixed_length (w : Nat) : ∀ v : Nat, (toHexFixed w v).length = w := by
  induction w with
  | zero => intro v; simp [toHexFixed]
  | succ w ih => intro v; simp [toHexFixed, ih]

theorem getD_hexAlphabet_mem (k : Nat) (h : k < 16) : hexAlphabet.getD k '0' ∈ hexAlphabet := by
  interval_cases k <;> decide

theorem toHexFixed_mem (w : Nat) : ∀ v : Nat, ∀ c ∈ toHexFixed w v, c ∈ hexAlphabet := by
  induction w with
  | zero => intro v c hc; simp [toHexFixed] at hc
  | succ w ih =>
    intro v c hc
    simp only [toHexFixed, List.mem_append, List.mem_singleton] at hc
    rcases hc with hc | hc
    · exact ih _ c hc
    · subst hc; exact getD_hexAlphabet_mem _ (Nat.mod_lt _ (by norm_num))

theorem compressBlock_length_le (h b : List Nat) :
    (compressBlock h b).length ≤ h.length := by
  simp only [compressBlock, List.length_map, List.length_zip]
  exact Nat.min_le_left _ _

theorem compressBlock_lt (h b : List Nat) : ∀ x ∈ compressBlock h b, x < M32 := by
  intro x hx
  simp only [compressBlock, List.mem_map] at hx
  obtain ⟨p, _, hp⟩ := hx
  subst hp
  exact Nat.mod_lt _ (by norm_num [M32])

theorem sha256Words_length_le (msg : List Nat) : (sha256Words msg).length ≤ 8 := by
  suffices h : ∀ (blocks : List (List Nat)) (h0 : List Nat), h0.length ≤ 8 →
      (blocks.foldl compressBlock h0).length ≤ 8 by
    exact h _ shaH0 (by decide)
  intro blocks
  induction blocks with
  | nil => intro h0 hl; simpa using hl
  | cons b bs ih =>
    intro h0 hl
    exact ih _ (le_trans (compressBlock_length_le h0 b) hl)

theorem sha256Words_lt (msg : List Nat) : ∀ x ∈ sha256Words msg, x < M32 := by
  suffices h : ∀ (blocks : List (List Nat)) (h0 : List Nat), (∀ x ∈ h0, x < M32) →
      ∀ x ∈ blocks.foldl compressBlock h0, x < M32 by
    exact h _ shaH0 (by decide)
  intro blocks
  induction blocks with
  | nil => intro h0 hl; simpa using hl
  | cons b bs ih =>
    intro h0 _ x hx
    exact ih _ (compressBlock_lt h0 b) x hx

theorem foldl_digest_bound (l : List Nat) : ∀ acc B : Nat, (∀ x ∈ l, x < M32) → acc < B →
    l.foldl (fun a w => a * M32 + w) acc < B * M32 ^ l.length := by
  induction l with
  | nil => intro acc B _ hacc; simpa using hacc
  | cons x xs ih =>
    intro acc B hl hacc
    have hx : x < M32 := hl x (List.mem_cons_self x xs)
    have hstep : acc * M32 + x < (B * M32) := by
      calc acc * M32 + x < acc * M32 + M32 := by omega
        _ = (acc + 1) * M32 := by ring
        _ ≤ B * M32 := Nat.mul_le_mul_right _ (by omega)
    have := ih (acc * M32 + x) (B * M32) (fun y hy => hl y (List.mem_cons_of_mem _ hy)) hstep
    calc (x :: xs).foldl (fun a w => a * M32 + w) acc
        = xs.foldl (fun a w => a * M32 + w) (acc * M32 + x) := by simp
      _ < (B * M32) * M32 ^ xs.length := this
      _ = B * M32 ^ (xs.length + 1) := by ring
      _ = B * M32 ^ (x :: xs).length := by simp

theorem sha256Nat_lt (msg : List Nat) : sha256Nat msg < 2 ^ 256 := by
  have h1 : sha256Nat msg < 1 * M32 ^ (sha256Words msg).length :=
    foldl_digest_bound _ 0 1 (sha256Words_lt msg) (by norm_num)
  have h2 : (1 : Nat) * M32 ^ (sha256Words msg).length ≤ 1 * M32 ^ 8 := by
    have := Nat.pow_le_pow_right (n := M32) (by norm_num [M32]) (sha256Words_length_le msg)
    omega
  have h3 : (1 : Nat) * M32 ^ 8 = 2 ^ 256 := by norm_num [M32]
  omega

theorem compute_checksum_length (s : String) : (compute_checksum s).length = 64 := by
  simp [compute_checksum, toHexFixed_length]

/-! ### Helper lemmas: the store model -/

section ModelLemmas

variable {Schema : Type} (interp : String → List (Schema → Option Schema)) (clock : Nat → String)

theorem ledgerEntries_probe (s : Store Schema) (b : Bool) :
    ledgerEntries { s with probeTable := b } = ledgerEntries s := rfl

theorem ensure_ledgerEntries (s : Store Schema) :
    ledgerEntries (ensure_schema_migrations s) = ledgerEntries s := by
  cases h : s.ledger <;> simp [ensure_schema_migrations, ledgerEntries, h]

theorem ensure_schema (s : Store Schema) :
    (ensure_schema_migrations s).schema = s.schema := by
  cases h : s.ledger <;> simp [ensure_schema_migrations, h]

theorem ensure_fts5 (s : Store Schema) :
    (ensure_schema_migrations s).fts5 = s.fts5 := by
  cases h : s.ledger <;> simp [ensure_schema_migrations, h]

theorem ensure_probeTable (s : Store Schema) :
    (ensure_schema_migrations s).probeTable = s.probeTable := by
  cases h : s.ledger <;> simp [ensure_schema_migrations, h]

theorem ensure_isSome (s : Store Schema) :
    (ensure_schema_migrations s).ledger.isSome = true := by
  cases h : s.ledger <;> simp [ensure_schema_migrations, h]

theorem ensure_eq_self (s : Store Schema) (h : s.ledger.isSome = true) :
    ensure_schema_migrations s = s := by
  cases hh : s.ledger with
  | none => rw [hh] at h; simp at h
  | some l => simp [ensure_schema_migrations, hh]

theorem probe_false_eta (s : Store Schema) (h : s.probeTable = false) :
    { s with probeTable := false } = s := by
  cases s; simp_all

theorem assert_fts5_of_true (s : Store Schema) (h : s.fts5 = true) :
    assert_fts5_available s =
      .ok [{ s with probeTable := true }, { s with probeTable := false }]
        { s with probeTable := false } := by
  simp [assert_fts5_available, create_probe, drop_probe, h]

theorem assert_fts5_of_false (s : Store Schema) (h : s.fts5 = false) :
    assert_fts5_available s = .missing := by
  simp [assert_fts5_available, create_probe, h]

theorem main_missing (dry : Bool) (dir : List (String × String)) (s0 : Store Schema)
    (h : s0.fts5 = false) :
    main interp clock dry dir s0 = (s0, .capabilityMissing, []) := by
  simp [main, assert_fts5_of_false _ h]

theorem classify_probe_invariant (s0 : Store Schema) (files : List (String × String)) :
    classify_migrations (ledgerEntries (ensure_schema_migrations { s0 with probeTable := false })) files =
      classify_migrations (ledgerEntries (ensure_schema_migrations s0)) files := by
  rw [ensure_ledgerEntries, ensure_ledgerEntries, ledgerEntries_probe]

theorem main_drift_eq (dry : Bool) (dir : List (String × String)) (s0 : Store Schema)
    (id old c : String) (h : s0.fts5 = true)
    (hc : classify_migrations (ledgerEntries (ensure_schema_migrations s0)) (iter_sql_files dir) =
      .drift id old c) :
    main interp clock dry dir s0 =
      (ensure_schema_migrations { s0 with probeTable := false }, .drift id old c,
       [{ s0 with probeTable := true }, { s0 with probeTable := false },
        ensure_schema_migrations { s0 with probeTable := false }]) := by
  have hc' := (classify_probe_invariant s0 (iter_sql_files dir)).trans hc
  simp [main, assert_fts5_of_true _ h, hc']

theorem main_pending_eq (dry : Bool) (dir : List (String × String)) (s0 : Store Schema)
    (pending : List (String × String)) (h : s0.fts5 = true)
    (hc : classify_migrations (ledgerEntries (ensure_schema_migrations s0)) (iter_sql_files dir) =
      .pending pending) :
    main interp clock dry dir s0 =
      (let s2 := ensure_schema_migrations { s0 with probeTable := false }
       let ptr := [{ s0 with probeTable := true }, { s0 with probeTable := false }]
       if pending.isEmpty then (s2, .upToDate, ptr ++ [s2])
       else if dry then (s2, .dryRun (pending.map (fun p => p.1)), ptr ++ [s2])
       else
         let r := applyList interp clock pending s2 0
         match r.2.2.2 with
         | some f => (r.2.1, .execFailure r.2.2.1 f, ptr ++ [s2] ++ r.1)
         | none => (r.2.1, .success r.2.2.1, ptr ++ [s2] ++ r.1)) := by
  have hc' := (classify_probe_invariant s0 (iter_sql_files dir)).trans hc
  simp [main, assert_fts5_of_true _ h, hc']

theorem lookupApplied_cons (r : Row) (rows : List Row) (id : String) :
    lookupApplied (r :: rows) id = if r.1 == id then some r.2 else lookupApplied rows id := by
  simp only [lookupApplied, List.find?_cons]
  cases h : r.1 == id <;> simp [h]

theorem lookupApplied_append (l1 l2 : List Row) (id : String) :
    lookupApplied (l1 ++ l2) id =
      match lookupApplied l1 id with
      | some v => some v
      | none => lookupApplied l2 id := by
  simp only [lookupApplied, List.find?_append]
  cases h : l1.find? (fun r => r.1 == id) <;> simp [Option.or, h]

theorem lookup_entriesOf (clock : Nat → String) :
    ∀ (l : List (String × String)) (k : Nat) (id t : String),
    (l.map Prod.fst).Nodup → (id, t) ∈ l →
    ∃ j, lookupApplied (entriesOf clock l k) id = some (compute_checksum t, clock j) := by
  intro l
  induction l with
  | nil => intro k id t _ hmem; simp at hmem
  | cons hd rest ih =>
    obtain ⟨i0, t0⟩ := hd
    intro k id t hnd hmem
    simp only [List.map_cons, List.nodup_cons] at hnd
    obtain ⟨hnotin, hnd'⟩ := hnd
    simp only [entriesOf]
    rw [lookupApplied_cons]
    by_cases he : i0 = id
    · subst he
      have ht : t = t0 := by
        rcases List.mem_cons.mp hmem with h | h
        · exact (Prod.mk.injEq _ _ _ _ ▸ h).2
        · exact absurd (List.mem_map.mpr ⟨(i0, t), h, rfl⟩) hnotin
      subst ht
      exact ⟨k, by simp⟩
    · have hmem' : (id, t) ∈ rest := by
        rcases List.mem_cons.mp hmem with h | h
        · exact absurd ((Prod.mk.injEq _ _ _ _ ▸ h).1.symm) he
        · exact h
      have hbeq : (i0 == id) = false := by simp [he]
      rw [hbeq]
      simpa using ih (k + 1) id t hnd' hmem'

theorem entriesOf_mem (clock : Nat → String) :
    ∀ (l : List (String × String)) (k : Nat) (id t : String), (id, t) ∈ l →
    ∃ j, (id, compute_checksum t, clock j) ∈ entriesOf clock l k := by
  intro l
  induction l with
  | nil => intro k id t h; simp at h
  | cons hd rest ih =>
    obtain ⟨i0, t0⟩ := hd
    intro k id t hmem
    rcases List.mem_cons.mp hmem with h | h
    · obtain ⟨h1, h2⟩ := Prod.mk.injEq _ _ _ _ ▸ h
      subst h1; subst h2
      exact ⟨k, by simp [entriesOf]⟩
    · obtain ⟨j, hj⟩ := ih (k + 1) id t h
      exact ⟨j, by simp [entriesOf, hj]⟩

theorem classify_drift_sound (applied : List Row) :
    ∀ (files : List (String × String)) (id old c : String),
    classify_migrations applied files = .drift id old c →
    ∃ text w, (id, text) ∈ files ∧ lookupApplied applied id = some (old, w) ∧
      c = compute_checksum text ∧ old ≠ c := by
  intro files
  induction files with
  | nil => intro id old c h; simp [classify_migrations] at h
  | cons f rest ih =>
    obtain ⟨i, t⟩ := f
    intro id old c h
    simp only [classify_migrations] at h
    cases hl : lookupApplied applied i with
    | some p =>
      obtain ⟨o, w⟩ := p
      rw [hl] at h
      dsimp only at h
      by_cases ho : o = compute_checksum t
      · rw [if_pos ho] at h
        obtain ⟨text, w', hmem, hlk, hc, hne⟩ := ih id old c h
        exact ⟨text, w', List.mem_cons_of_mem _ hmem, hlk, hc, hne⟩
      · rw [if_neg ho] at h
        simp only [Classified.drift.injEq] at h
        obtain ⟨h1, h2, h3⟩ := h
        subst h1; subst h2; subst h3
        exact ⟨t, w, List.mem_cons_self _ _, hl, rfl, ho⟩
    | none =>
      rw [hl] at h
      dsimp only at h
      cases hcr : classify_migrations applied rest with
      | drift a b c' =>
        rw [hcr] at h
        dsimp only at h
        simp only [Classified.drift.injEq] at h
        obtain ⟨h1, h2, h3⟩ := h
        subst h1; subst h2; subst h3
        obtain ⟨text, w', hmem, hlk, hc, hne⟩ := ih a b c' hcr
        exact ⟨text, w', List.mem_cons_of_mem _ hmem, hlk, hc, hne⟩
      | pending p => rw [hcr] at h; dsimp only at h; simp at h

theorem classify_drift_complete (applied : List Row) :
    ∀ (files : List (String × String)),
    (∃ p ∈ files, ∃ old w, lookupApplied applied p.1 = some (old, w) ∧
      old ≠ compute_checksum p.2) →
    ∃ a b c, classify_migrations applied files = .drift a b c := by
  intro files
  induction files with
  | nil => intro h; simp at h
  | cons f rest ih =>
    obtain ⟨i, t⟩ := f
    intro h
    obtain ⟨p, hp, old, w, hlk, hne⟩ := h
    simp only [classify_migrations]
    cases hl : lookupApplied applied i with
    | some q =>
      obtain ⟨o, w'⟩ := q
      dsimp only
      by_cases ho : o = compute_checksum t
      · rw [if_pos ho]
        rcases List.mem_cons.mp hp with hh | hh
        · subst hh
          rw [hl] at hlk
          simp only [Option.some.injEq, Prod.mk.injEq] at hlk
          exact absurd (by rw [← hlk.1]; exact ho) hne
        · exact ih ⟨p, hh, old, w, hlk, hne⟩
      · rw [if_neg ho]
        exact ⟨i, o, compute_checksum t, rfl⟩
    | none =>
      have hp' : p ∈ rest := by
        rcases List.mem_cons.mp hp with hh | hh
        · subst hh; rw [hl] at hlk; simp at hlk
        · exact hh
      obtain ⟨a, b, c, hc⟩ := ih ⟨p, hp', old, w, hlk, hne⟩
      dsimp only
      rw [hc]
      exact ⟨a, b, c, rfl⟩

theorem classify_sublist (applied : List Row) :
    ∀ (files p : List (String × String)),
    classify_migrations applied files = .pending p → p.Sublist files := by
  intro files
  induction files with
  | nil => intro p h; simp [classify_migrations] at h; simp [h]
  | cons f rest ih =>
    obtain ⟨i, t⟩ := f
    intro p h
    simp only [classify_migrations] at h
    cases hl : lookupApplied applied i with
    | some q =>
      obtain ⟨o, w⟩ := q
      rw [hl] at h
      dsimp only at h
      by_cases ho : o = compute_checksum t
      · rw [if_pos ho] at h
        exact (ih p h).cons _
      · rw [if_neg ho] at h; simp at h
    | none =>
      rw [hl] at h
      dsimp only at h
      cases hcr : classify_migrations applied rest with
      | drift a b c => rw [hcr] at h; dsimp only at h; simp at h
      | pending q =>
        rw [hcr] at h
        dsimp only at h
        simp only [Classified.pending.injEq] at h
        subst h
        exact (ih q hcr).cons₂ _

theorem classify_mem_char (applied : List Row) :
    ∀ (files p : List (String × String)),
    classify_migrations applied files = .pending p →
    ∀ f ∈ files, (f ∈ p ∧ lookupApplied applied f.1 = none) ∨
      (∃ w, lookupApplied applied f.1 = some (compute_checksum f.2, w)) := by
  intro files
  induction files with
  | nil => intro p _ f hf; simp at hf
  | cons hd rest ih =>
    obtain ⟨i, t⟩ := hd
    intro p h f hf
    simp only [classify_migrations] at h
    cases hl : lookupApplied applied i with
    | some q =>
      obtain ⟨o, w⟩ := q
      rw [hl] at h
      dsimp only at h
      by_cases ho : o = compute_checksum t
      · rw [if_pos ho] at h
        rcases List.mem_cons.mp hf with hh | hh
        · subst hh; exact Or.inr ⟨w, by rw [hl, ho]⟩
        · exact ih p h f hh
      · rw [if_neg ho] at h; simp at h
    | none =>
      rw [hl] at h
      dsimp only at h
      cases hcr : classify_migrations applied rest with
      | drift a b c => rw [hcr] at h; dsimp only at h; simp at h
      | pending q =>
        rw [hcr] at h
        dsimp only at h
        simp only [Classified.pending.injEq] at h
        subst h
        rcases List.mem_cons.mp hf with hh | hh
        · subst hh; exact Or.inl ⟨List.mem_cons_self _ _, hl⟩
        · rcases ih q hcr f hh with ⟨h1, h2⟩ | h1
          · exact Or.inl ⟨List.mem_cons_of_mem _ h1, h2⟩
          · exact Or.inr h1

theorem classify_all_match (applied : List Row) :
    ∀ (files : List (String × String)),
    (∀ f ∈ files, ∃ w, lookupApplied applied f.1 = some (compute_checksum f.2, w)) →
    classify_migrations applied files = .pending [] := by
  intro files
  induction files with
  | nil => intro _; rfl
  | cons hd rest ih =>
    obtain ⟨i, t⟩ := hd
    intro h
    obtain ⟨w, hw⟩ := h (i, t) (List.mem_cons_self _ _)
    simp only [classify_migrations]
    rw [hw]
    dsimp only
    rw [if_pos rfl]
    exact ih (fun f hf => h f (List.mem_cons_of_mem _ hf))

theorem apply_fts5 (now : String) (s : Store Schema) (id t : String) :
    ((apply_migration interp now s id t).2.1).fts5 = s.fts5 := by
  simp only [apply_migration]
  split
  · split <;> rfl
  · rfl

theorem apply_probeTable (now : String) (s : Store Schema) (id t : String) :
    ((apply_migration interp now s id t).2.1).probeTable = s.probeTable := by
  simp only [apply_migration]
  split
  · split <;> rfl
  · rfl

theorem apply_ledger_isSome (now : String) (s : Store Schema) (id t : String)
    (h : s.ledger.isSome = true) :
    ((apply_migration interp now s id t).2.1).ledger.isSome = true := by
  simp only [apply_migration]
  split
  · split
    · exact h
    · rfl
  · exact h

theorem apply_true_ledger (now : String) (s : Store Schema) (id t : String)
    (h : (apply_migration interp now s id t).2.2 = true) :
    ledgerEntries (apply_migration interp now s id t).2.1 =
      ledgerEntries s ++ [(id, compute_checksum t, now)] := by
  revert h
  simp only [apply_migration]
  split
  · split
    · intro h; simp at h
    · intro _; simp [ledgerEntries]
  · intro h; simp at h

theorem apply_final_mem (now : String) (s : Store Schema) (id t : String) (row : Row)
    (hrow : row ∈ ledgerEntries s) :
    row ∈ ledgerEntries (apply_migration interp now s id t).2.1 := by
  simp only [apply_migration]
  split
  · split
    · exact hrow
    · simp only [ledgerEntries, Option.getD_some]
      exact List.mem_append_left _ hrow
  · exact hrow

theorem apply_trace_mem (now : String) (s : Store Schema) (id t : String)
    (st : Store Schema) (hst : st ∈ (apply_migration interp now s id t).1) (row : Row)
    (hrow : row ∈ ledgerEntries s) : row ∈ ledgerEntries st := by
  revert hst
  simp only [apply_migration]
  split
  · split
    · intro hst
      obtain ⟨sch, _, hs⟩ := List.mem_map.mp hst
      subst hs
      exact hrow
    · intro hst
      rcases List.mem_append.mp hst with hh | hh
      · obtain ⟨sch, _, hs⟩ := List.mem_map.mp hh
        subst hs
        exact hrow
      · rw [List.mem_singleton.mp hh]
        simp only [ledgerEntries, Option.getD_some]
        exact List.mem_append_left _ hrow
  · intro hst
    obtain ⟨sch, _, hs⟩ := List.mem_map.mp hst
    subst hs
    exact hrow

theorem applyList_none_inv :
    ∀ (l : List (String × String)) (s : Store Schema) (k : Nat),
    (applyList interp clock l s k).2.2.2 = none →
    applySucceeds interp clock l s k = true
    ∧ (applyList interp clock l s k).2.1 = applyOkStore interp clock l s k
    ∧ (applyList interp clock l s k).2.2.1 = l.map Prod.fst := by
  intro l
  induction l with
  | nil => intro s k _; exact ⟨rfl, rfl, rfl⟩
  | cons f rest ih =>
    obtain ⟨i, t⟩ := f
    intro s k h
    simp only [applyList] at h ⊢
    cases hok : (apply_migration interp (clock k) s i t).2.2 with
    | false => rw [hok] at h; simp at h
    | true =>
      rw [hok] at h
      simp only [if_true] at h
      obtain ⟨h1, h2, h3⟩ := ih _ _ h
      refine ⟨?_, ?_, ?_⟩
      · simp [applySucceeds, hok, h1]
      · simp only [hok, if_true, applyOkStore]
        exact h2
      · simp only [hok, if_true, List.map_cons]
        rw [h3]

theorem applyOk_ledger :
    ∀ (l : List (String × String)) (s : Store Schema) (k : Nat),
    applySucceeds interp clock l s k = true →
    ledgerEntries (applyOkStore interp clock l s k) = ledgerEntries s ++ entriesOf clock l k := by
  intro l
  induction l with
  | nil => intro s k _; simp [applyOkStore, entriesOf]
  | cons f rest ih =>
    obtain ⟨i, t⟩ := f
    intro s k h
    simp only [applySucceeds, Bool.and_eq_true] at h
    obtain ⟨hok, hrest⟩ := h
    simp only [applyOkStore, entriesOf]
    rw [ih _ _ hrest, apply_true_ledger interp _ _ _ _ hok]
    simp

theorem applyOk_fts5 :
    ∀ (l : List (String × String)) (s : Store Schema) (k : Nat),
    (applyOkStore interp clock l s k).fts5 = s.fts5 := by
  intro l
  induction l with
  | nil => intro s k; rfl
  | cons f rest ih =>
    obtain ⟨i, t⟩ := f
    intro s k
    simp only [applyOkStore]
    rw [ih, apply_fts5]

theorem applyOk_probeTable :
    ∀ (l : List (String × String)) (s : Store Schema) (k : Nat),
    (applyOkStore interp clock l s k).probeTable = s.probeTable := by
  intro l
  induction l with
  | nil => intro s k; rfl
  | cons f rest ih =>
    obtain ⟨i, t⟩ := f
    intro s k
    simp only [applyOkStore]
    rw [ih, apply_probeTable]

theorem applyOk_ledger_isSome :
    ∀ (l : List (String × String)) (s : Store Schema) (k : Nat),
    s.ledger.isSome = true → ((applyOkStore interp clock l s k).ledger).isSome = true := by
  intro l
  induction l with
  | nil => intro s k h; exact h
  | cons f rest ih =>
    obtain ⟨i, t⟩ := f
    intro s k h
    simp only [applyOkStore]
    exact ih _ _ (apply_ledger_isSome interp _ _ _ _ h)

theorem applyList_trace_mem :
    ∀ (l : List (String × String)) (s : Store Schema) (k : Nat) (st : Store Schema),
    st ∈ (applyList interp clock l s k).1 → ∀ row ∈ ledgerEntries s, row ∈ ledgerEntries st := by
  intro l
  induction l with
  | nil => intro s k st hst; simp [applyList] at hst
  | cons f rest ih =>
    obtain ⟨i, t⟩ := f
    intro s k st hst row hrow
    simp only [applyList] at hst
    cases hok : (apply_migration interp (clock k) s i t).2.2 with
    | false =>
      rw [hok] at hst
      simp only [Bool.false_eq_true, if_false] at hst
      exact apply_trace_mem interp _ _ _ _ _ hst row hrow
    | true =>
      rw [hok] at hst
      simp only [if_true] at hst
      rcases List.mem_append.mp hst with hh | hh
      · exact apply_trace_mem interp _ _ _ _ _ hh row hrow
      · exact ih _ _ _ hh row (apply_final_mem interp _ _ _ _ row hrow)

theorem applyList_append_succ :
    ∀ (l1 l2 : List (String × String)) (s : Store Schema) (k : Nat),
    applySucceeds interp clock l1 s k = true →
    applyList interp clock (l1 ++ l2) s k =
      ((applyList interp clock l1 s k).1 ++
         (applyList interp clock l2 (applyOkStore interp clock l1 s k) (k + l1.length)).1,
       (applyList interp clock l2 (applyOkStore interp clock l1 s k) (k + l1.length)).2.1,
       l1.map Prod.fst ++
         (applyList interp clock l2 (applyOkStore interp clock l1 s k) (k + l1.length)).2.2.1,
       (applyList interp clock l2 (applyOkStore interp clock l1 s k) (k + l1.length)).2.2.2) := by
  intro l1
  induction l1 with
  | nil => intro l2 s k _; simp [applyList, applyOkStore]
  | cons f rest ih =>
    obtain ⟨i, t⟩ := f
    intro l2 s k h
    simp only [applySucceeds, Bool.and_eq_true] at h
    obtain ⟨hok, hrest⟩ := h
    have hlen : k + 1 + rest.length = k + (rest.length + 1) := by omega
    simp only [List.cons_append, applyList, hok, if_true, applyOkStore, List.length_cons,
      List.map_cons, List.append_eq]
    rw [ih _ _ _ hrest, hlen]
    simp [List.append_assoc]

theorem insertLe_perm {α : Type} (le : α → α → Bool) (a : α) :
    ∀ l : List α, List.Perm (insertLe le a l) (a :: l) := by
  intro l
  induction l with
  | nil => exact List.Perm.refl _
  | cons b l ih =>
    simp only [insertLe]
    cases h : le a b with
    | true => exact List.Perm.refl _
    | false =>
      simp only [Bool.false_eq_true, if_false]
      exact (ih.cons b).trans (List.Perm.swap a b l)

theorem sortLe_perm {α : Type} (le : α → α → Bool) :
    ∀ l : List α, List.Perm (sortLe le l) l := by
  intro l
  induction l with
  | nil => exact List.Perm.refl _
  | cons a l ih =>
    exact (insertLe_perm le a (sortLe le l)).trans (ih.cons a)

theorem insertLe_pairwise {α : Type} (le : α → α → Bool)
    (htrans : ∀ a b c, le a b = true → le b c = true → le a c = true)
    (htotal : ∀ a b, le a b = true ∨ le b a = true) (a : α) :
    ∀ l : List α, l.Pairwise (fun x y => le x y = true) →
    (insertLe le a l).Pairwise (fun x y => le x y = true) := by
  intro l
  induction l with
  | nil => intro _; simp [insertLe]
  | cons b l ih =>
    intro hp
    obtain ⟨hb, hl⟩ := List.pairwise_cons.mp hp
    simp only [insertLe]
    cases h : le a b with
    | true =>
      simp only [if_true]
      refine List.pairwise_cons.mpr ⟨?_, hp⟩
      intro x hx
      rcases List.mem_cons.mp hx with rfl | hx
      · exact h
      · exact htrans a b x h (hb x hx)
    | false =>
      simp only [Bool.false_eq_true, if_false]
      refine List.pairwise_cons.mpr ⟨?_, ih hl⟩
      intro x hx
      have hx2 : x ∈ a :: l := (insertLe_perm le a l).mem_iff.mp hx
      rcases List.mem_cons.mp hx2 with hxa | hx2
      · subst hxa
        rcases htotal x b with hab | hba
        · rw [hab] at h; cases h
        · exact hba
      · exact hb x hx2

theorem sortLe_pairwise {α : Type} (le : α → α → Bool)
    (htrans : ∀ a b c, le a b = true → le b c = true → le a c = true)
    (htotal : ∀ a b, le a b = true ∨ le b a = true) :
    ∀ l : List α, (sortLe le l).Pairwise (fun x y => le x y = true) := by
  intro l
  induction l with
  | nil => simp [sortLe]
  | cons a l ih => exact insertLe_pairwise le htrans htotal a (sortLe le l) ih

theorem leChars_le : ∀ l1 l2 : List Char, leChars l1 l2 = true ↔ l1 ≤ l2 := by
  intro l1
  induction l1 with
  | nil =>
    intro l2
    constructor
    · intro _
      rw [← not_lt]
      intro hlt
      cases hlt
    · intro _; rfl
  | cons a as ih =>
    intro l2
    cases l2 with
    | nil =>
      simp only [leChars, Bool.false_eq_true, false_iff, ← not_lt, not_not]
      exact List.Lex.nil
    | cons b bs =>
      simp only [leChars]
      rcases lt_trichotomy a b with hab | hab | hab
      · rw [if_pos hab]
        simp only [true_iff, ← not_lt]
        intro hlt
        cases hlt with
        | cons h => exact absurd rfl (ne_of_gt hab)
        | rel h => exact absurd hab (lt_asymm h)
      · subst hab
        rw [if_neg (lt_irrefl a), if_neg (lt_irrefl a)]
        rw [ih bs]
        simp only [← not_lt]
        constructor
        · intro hle hlt
          cases hlt with
          | cons h => exact hle h
          | rel h => exact absurd h (lt_irrefl a)
        · intro hle hlt
          exact hle (List.Lex.cons hlt)
      · rw [if_neg (lt_asymm hab), if_pos hab]
        simp only [Bool.false_eq_true, false_iff, ← not_lt, not_not]
        exact List.Lex.rel hab

theorem leChars_le_str (a b : String) : leChars a.data b.data = true ↔ a ≤ b :=
  (leChars_le a.data b.data).trans String.le_iff_toList_le.symm

theorem iter_sorted (dir : List (String × String)) :
    (iter_sql_files dir).Pairwise (fun a b => a.1 ≤ b.1) := by
  have h := sortLe_pairwise (fun a b : String × String => leChars a.1.data b.1.data)
    (fun a b c hab hbc => by
      rw [leChars_le_str] at *
      exact le_trans hab hbc)
    (fun a b => by
      rw [leChars_le_str, leChars_le_str]
      exact le_total a.1 b.1)
    (dir.filter (fun f => strEndsWith (strToLower f.1) ".sql"))
  exact h.imp (fun hab => (leChars_le_str _ _).mp hab)

theorem iter_mem (dir : List (String × String)) (f : String × String) :
    f ∈ iter_sql_files dir ↔ f ∈ dir ∧ strEndsWith (strToLower f.1) ".sql" = true := by
  unfold iter_sql_files
  rw [(sortLe_perm _ _).mem_iff, List.mem_filter]

theorem iter_names_nodup (dir : List (String × String))
    (hnd : (dir.map Prod.fst).Nodup) : ((iter_sql_files dir).map Prod.fst).Nodup := by
  have hperm : List.Perm (iter_sql_files dir)
      (dir.filter (fun f => strEndsWith (strToLower f.1) ".sql")) :=
    sortLe_perm _ _
  have hsub : ((dir.filter (fun f => strEndsWith (strToLower f.1) ".sql")).map Prod.fst).Sublist
      (dir.map Prod.fst) := (List.filter_sublist dir).map Prod.fst
  exact ((hperm.map Prod.fst).nodup_iff).mpr (hsub.nodup hnd)

theorem main_success_inv {Schema : Type} (interp : String → List (Schema → Option Schema))
    (clock : Nat → String) (dir : List (String × String)) (s0 fin : Store Schema)
    (ids : List String) (tr : List (Store Schema))
    (h : main interp clock false dir s0 = (fin, .success ids, tr)) :
    s0.fts5 = true ∧
    ∃ pending,
      classify_migrations (ledgerEntries (ensure_schema_migrations s0)) (iter_sql_files dir) =
        .pending pending ∧
      pending ≠ [] ∧
      applySucceeds interp clock pending
        (ensure_schema_migrations { s0 with probeTable := false }) 0 = true ∧
      fin = applyOkStore interp clock pending
        (ensure_schema_migrations { s0 with probeTable := false }) 0 ∧
      ids = pending.map Prod.fst := by
  by_cases hfts : s0.fts5 = true
  case neg =>
    rw [main_missing interp clock false dir s0 (Bool.not_eq_true _ ▸ hfts)] at h
    simp at h
  case pos =>
    cases hcl : classify_migrations (ledgerEntries (ensure_schema_migrations s0))
        (iter_sql_files dir) with
    | drift a b c =>
      rw [main_drift_eq interp clock false dir s0 a b c hfts hcl] at h
      simp at h
    | pending pending =>
      rw [main_pending_eq interp clock false dir s0 pending hfts hcl] at h
      by_cases hemp : pending.isEmpty
      · simp [hemp] at h
      · rw [Bool.not_eq_true] at hemp
        simp only [hemp, Bool.false_eq_true, if_false] at h
        cases hfail : (applyList interp clock pending
            (ensure_schema_migrations { s0 with probeTable := false }) 0).2.2.2 with
        | some f =>
          rw [hfail] at h
          simp at h
        | none =>
          rw [hfail] at h
          simp only [Prod.mk.injEq, RunResult.success.injEq] at h
          obtain ⟨hfin, hids, _⟩ := h
          obtain ⟨hsucc, hok, hmap⟩ := applyList_none_inv interp clock pending _ 0 hfail
          refine ⟨hfts, pending, rfl, ?_, hsucc, ?_, ?_⟩
          · intro hcontra; rw [hcontra] at hemp; simp at hemp
          · rw [← hfin, hok]
          · rw [← hids, hmap]

end ModelLemmas

end InitDb


/-! ### The claims -/

open InitDb Dao Ex

set_option maxRecDepth 100000

set_option maxHeartbeats 2000000

/-- C1: the claim says a pending change-set's statements and its ledger
entry become durable together as one atomic unit, and that a mid-script
failure leaves the store exactly as before the change-set started.  The
code does not do this: `executescript` runs the script in autocommit mode
(CPython sqlite3 performs no implicit transaction control beyond an
initial COMMIT), so on `dirC1` — where "0002.sql" is a two-statement
script whose second statement fails — the run stops at "0002.sql" and
never attempts "0003.sql" (that part of the claim holds), no ledger row
is written for "0002.sql", but the first statement of "0002.sql" stays
durably committed: the final schema is [2, 1], not the pre-change-set
schema [1].  This contradicts the source's own comment (init_db.py line
64, "executescript() runs multiple statements within an implicit
transaction"). -/
theorem C1_apply_not_atomic :
    (main interpEx clockEx false dirC1 s0Fresh).2.1 =
      RunResult.execFailure ["0001.sql"] "0002.sql"
    ∧ (main interpEx clockEx false dirC1 s0Fresh).1.schema = [2, 1]
    ∧ (ledgerEntries (main interpEx clockEx false dirC1 s0Fresh).1).map (fun r => r.1) =
        ["0001.sql"]
    ∧ (main interpEx clockEx false dirC1 s0Fresh).1.schema ≠ [1] := by
  refine ⟨?_, ?_, ?_, ?_⟩ <;> decide

/-- C2: if any candidate change-set's id is recorded in the ledger with a
stored fingerprint differing from the freshly computed one, the run
returns the drift error (exit 1) carrying an offending id together with
its stored and freshly computed fingerprints, the schema and the ledger
rows are left untouched, and nothing is applied or recorded for any
change-set (the run ends at the classification loop, before any apply,
in dry-run and apply mode alike). -/
theorem C2_drift_aborts_before_any_apply {Schema : Type}
    (interp : String → List (Schema → Option Schema)) (clock : Nat → String)
    (dry : Bool) (dir : List (String × String)) (s0 : Store Schema)
    (hfts : s0.fts5 = true)
    (hdrift : ∃ p ∈ iter_sql_files dir, ∃ old w,
      lookupApplied (ledgerEntries (ensure_schema_migrations s0)) p.1 = some (old, w) ∧
      old ≠ compute_checksum p.2) :
    ∃ id stored computed,
      main interp clock dry dir s0 =
        (ensure_schema_migrations { s0 with probeTable := false },
         RunResult.drift id stored computed,
         [{ s0 with probeTable := true }, { s0 with probeTable := false },
          ensure_schema_migrations { s0 with probeTable := false }]) ∧
      (main interp clock dry dir s0).1.schema = s0.schema ∧
      ledgerEntries (main interp clock dry dir s0).1 = ledgerEntries s0 ∧
      ∃ text w, (id, text) ∈ iter_sql_files dir ∧
        lookupApplied (ledgerEntries (ensure_schema_migrations s0)) id = some (stored, w) ∧
        computed = compute_checksum text ∧ stored ≠ computed := by
  obtain ⟨a, b, c, hcl⟩ := classify_drift_complete _ _ hdrift
  have hmain := main_drift_eq interp clock dry dir s0 a b c hfts hcl
  refine ⟨a, b, c, hmain, ?_, ?_, classify_drift_sound _ _ a b c hcl⟩
  · rw [hmain]
    simp [ensure_schema]
  · rw [hmain]
    simp [ensure_ledgerEntries, ledgerEntries_probe]

/-- C2 witness: a store that recorded "0001.sql" with checksum "deadbeef"
while the file now reads "x". -/
theorem C2_drift_witness :
    ∃ id stored computed,
      main interpEx clockEx false dirDrift s0Drift =
        (ensure_schema_migrations { s0Drift with probeTable := false },
         RunResult.drift id stored computed,
         [{ s0Drift with probeTable := true }, { s0Drift with probeTable := false },
          ensure_schema_migrations { s0Drift with probeTable := false }]) ∧
      (main interpEx clockEx false dirDrift s0Drift).1.schema = s0Drift.schema ∧
      ledgerEntries (main interpEx clockEx false dirDrift s0Drift).1 = ledgerEntries s0Drift ∧
      ∃ text w, (id, text) ∈ iter_sql_files dirDrift ∧
        lookupApplied (ledgerEntries (ensure_schema_migrations s0Drift)) id = some (stored, w) ∧
        computed = compute_checksum text ∧ stored ≠ computed :=
  C2_drift_aborts_before_any_apply interpEx clockEx false dirDrift s0Drift rfl
    ⟨("0001.sql", "x"), by decide, "deadbeef", "t0", by decide, by decide⟩

/-- C3 counterexample: the program does not fingerprint the exact byte
content of a change-set file.  `iter_sql_files` reads each file in text
mode (`open(path, "r", encoding="utf-8")`), which applies
universal-newline translation before anything is checksummed, so the
byte-distinct files "SELECT 1;\r\n" (CRLF) and "SELECT 1;\n" (LF)
decode to the same `sql_text` and are treated as having equal
fingerprints — a concrete, certain collision, not a negligible-
probability event. -/
theorem C3_newline_collision :
    crlfFile ≠ lfFile
    ∧ file_checksum crlfFile = file_checksum lfFile
    ∧ (file_checksum crlfFile).isSome = true
    ∧ readSqlText crlfFile = some "SELECT 1;\n" := by
  refine ⟨by decide, by decide, by decide, by decide⟩

/-- C3 (amended): the digest function is a pure deterministic function
of the bytes it hashes — the same input always yields an identical
fixed-length digest (64 lowercase-hex characters), depending on nothing
but the UTF-8 encoding of the string hashed.  But the program computes
it over the text-mode read of the change-set file (UTF-8 decode plus
universal-newline translation), not over the file's exact bytes: the
fingerprint depends only on that decoded, newline-translated text, so
byte-distinct files that differ only in newline encoding (CRLF vs LF)
are treated as having equal fingerprints with certainty. -/
theorem C3_digest_shape (s : String) :
    (compute_checksum s).length = 64
    ∧ (∀ c ∈ (compute_checksum s).data, c ∈ hexAlphabet)
    ∧ (∀ t : String, utf8Bytes s = utf8Bytes t → compute_checksum s = compute_checksum t)
    ∧ (∀ b1 b2 : List Nat, readSqlText b1 = readSqlText b2 →
        file_checksum b1 = file_checksum b2) := by
  refine ⟨compute_checksum_length s, ?_, ?_, ?_⟩
  · intro c hc
    exact toHexFixed_mem 64 _ c hc
  · intro t h
    unfold compute_checksum
    rw [h]
  · intro b1 b2 h
    unfold file_checksum
    rw [h]

/-- C3 witness: determinism and length at a concrete script, and the
pipeline fingerprint at the concrete CRLF/LF pair. -/
theorem C3_digest_shape_witness :
    (compute_checksum "CREATE TABLE t(x);").length = 64
    ∧ compute_checksum "CREATE TABLE t(x);" = compute_checksum "CREATE TABLE t(x);"
    ∧ file_checksum crlfFile = file_checksum lfFile :=
  ⟨(C3_digest_shape "CREATE TABLE t(x);").1,
   (C3_digest_shape "CREATE TABLE t(x);").2.2.1 "CREATE TABLE t(x);" rfl,
   (C3_digest_shape "CREATE TABLE t(x);").2.2.2 crlfFile lfFile (by decide)⟩

/-- C4: the claim's invariant — at every point during and after a run, a
ledger entry for a change-set exists iff that change-set's statements
have been durably committed — is violated by the code: because the
script's statements autocommit and the ledger INSERT commits in a later
transaction, the run on a single pending change-set "0001.sql" passes
through a durable state in which the change-set's statements are fully
committed (schema = [1]) while the ledger holds no entry at all.  The
final state then has the entry, confirming the window sits between the
script commit and the ledger commit. -/
theorem C4_ledger_iff_violated :
    (∃ st ∈ (main interpEx clockEx false dirOne s0Fresh).2.2,
        st.schema = [1] ∧ ledgerEntries st = [])
    ∧ (ledgerEntries (main interpEx clockEx false dirOne s0Fresh).1).map (fun r => r.1) =
        ["0001.sql"] := by
  constructor
  · decide
  · decide

/-- C5: the change-set source returns the candidates sorted by
lexicographic order of their names (for UTF-8 file names, code-point
order and byte-wise order agree); the pending list preserves that order;
and whenever the change-sets of `l1` all apply successfully, every
change-set of `l1` (in particular any `a` with a lexicographically
smaller id than the first element `b` of `l2`) has its ledger row — id
and checksum — present in the store from which `l2`'s first apply
begins, and present in every durable state produced while `l2` is
processed; the apply loop on `l1 ++ l2` is exactly the loop on `l1`
followed by the loop on `l2` started from that store. -/
theorem C5_ordering {Schema : Type}
    (interp : String → List (Schema → Option Schema)) (clock : Nat → String)
    (dir : List (String × String)) (applied : List Row)
    (pending l1 l2 : List (String × String)) (s : Store Schema) (k : Nat)
    (aid atext : String) :
    (iter_sql_files dir).Pairwise (fun a b => a.1 ≤ b.1)
    ∧ (classify_migrations applied (iter_sql_files dir) = .pending pending →
        pending.Pairwise (fun a b => a.1 ≤ b.1))
    ∧ ((aid, atext) ∈ l1 → applySucceeds interp clock l1 s k = true →
        (∃ row ∈ ledgerEntries (applyOkStore interp clock l1 s k),
            row.1 = aid ∧ row.2.1 = compute_checksum atext)
        ∧ applyList interp clock (l1 ++ l2) s k =
            ((applyList interp clock l1 s k).1 ++
               (applyList interp clock l2 (applyOkStore interp clock l1 s k)
                 (k + l1.length)).1,
             (applyList interp clock l2 (applyOkStore interp clock l1 s k)
               (k + l1.length)).2.1,
             l1.map Prod.fst ++
               (applyList interp clock l2 (applyOkStore interp clock l1 s k)
                 (k + l1.length)).2.2.1,
             (applyList interp clock l2 (applyOkStore interp clock l1 s k)
               (k + l1.length)).2.2.2)
        ∧ ∀ st ∈ (applyList interp clock l2 (applyOkStore interp clock l1 s k)
              (k + l1.length)).1,
            ∃ row ∈ ledgerEntries st, row.1 = aid ∧ row.2.1 = compute_checksum atext) := by
  refine ⟨iter_sorted dir, ?_, ?_⟩
  · intro hcl
    exact List.Pairwise.sublist (classify_sublist _ _ _ hcl) (iter_sorted dir)
  · intro hmem hsucc
    obtain ⟨j, hj⟩ := entriesOf_mem clock l1 k aid atext hmem
    have hled := applyOk_ledger interp clock l1 s k hsucc
    have hstart : (aid, compute_checksum atext, clock j) ∈
        ledgerEntries (applyOkStore interp clock l1 s k) := by
      rw [hled]
      exact List.mem_append_right _ hj
    refine ⟨⟨_, hstart, rfl, rfl⟩, applyList_append_succ interp clock l1 l2 s k hsucc, ?_⟩
    intro st hst
    exact ⟨_, applyList_trace_mem interp clock l2 _ _ st hst _ hstart, rfl, rfl⟩

/-- C5 witness: after "0001.sql" applies, its ledger row is in place
before and throughout the processing of "0002.sql". -/
theorem C5_ordering_witness :
    (∃ row ∈ ledgerEntries (applyOkStore interpEx clockEx [("0001.sql", "good")] s0Led 0),
        row.1 = "0001.sql" ∧ row.2.1 = compute_checksum "good")
    ∧ ∀ st ∈ (applyList interpEx clockEx [("0002.sql", "never")]
          (applyOkStore interpEx clockEx [("0001.sql", "good")] s0Led 0)
          (0 + [("0001.sql", "good")].length)).1,
        ∃ row ∈ ledgerEntries st, row.1 = "0001.sql" ∧ row.2.1 = compute_checksum "good" := by
  have h := (C5_ordering interpEx clockEx [] [] [] [("0001.sql", "good")]
      [("0002.sql", "never")] s0Led 0 "0001.sql" "good").2.2 (by decide) (by decide)
  exact ⟨h.1, h.2.2⟩

/-- C6: after a fully successful run, a second run against the same
directory and the resulting store classifies every candidate as Skip
(empty pending list), mutates nothing, and reports "up to date": its
final store is exactly the first run's final store, and its only durable
intermediate states are the transient FTS5 probe and the unchanged
store itself. -/
theorem C6_second_run_is_no_op {Schema : Type}
    (interp interp2 : String → List (Schema → Option Schema)) (clock clock2 : Nat → String)
    (dir : List (String × String)) (s0 fin : Store Schema) (ids : List String)
    (tr : List (Store Schema))
    (hnd : (dir.map Prod.fst).Nodup)
    (h : main interp clock false dir s0 = (fin, .success ids, tr)) :
    classify_migrations (ledgerEntries fin) (iter_sql_files dir) = .pending []
    ∧ main interp2 clock2 false dir fin =
        (fin, .upToDate, [{ fin with probeTable := true }, fin, fin]) := by
  obtain ⟨hfts, pending, hcl, hne, hsucc, hfin, hids⟩ :=
    main_success_inv interp clock dir s0 fin ids tr h
  have hsub : pending.Sublist (iter_sql_files dir) := classify_sublist _ _ _ hcl
  have hnames : ((iter_sql_files dir).map Prod.fst).Nodup := iter_names_nodup dir hnd
  have hpnd : (pending.map Prod.fst).Nodup := (hsub.map Prod.fst).nodup hnames
  have hfts2 : fin.fts5 = true := by
    rw [hfin, applyOk_fts5, ensure_fts5]
    exact hfts
  have hpt2 : fin.probeTable = false := by
    rw [hfin, applyOk_probeTable, ensure_probeTable]
  have hsome : fin.ledger.isSome = true := by
    rw [hfin]
    exact applyOk_ledger_isSome interp clock pending _ 0 (ensure_isSome _)
  have hledfin : ledgerEntries fin =
      ledgerEntries (ensure_schema_migrations s0) ++ entriesOf clock pending 0 := by
    rw [hfin, applyOk_ledger interp clock pending _ 0 hsucc]
    simp only [ensure_ledgerEntries, ledgerEntries_probe]
  have hpart1 : classify_migrations (ledgerEntries fin) (iter_sql_files dir) = .pending [] := by
    apply classify_all_match
    intro f hf
    rcases classify_mem_char _ _ _ hcl f hf with ⟨hfp, hnone⟩ | ⟨w, hw⟩
    · obtain ⟨j, hj⟩ := lookup_entriesOf clock pending 0 f.1 f.2 hpnd (by simpa using hfp)
      refine ⟨clock j, ?_⟩
      rw [hledfin, lookupApplied_append, hnone]
      exact hj
    · refine ⟨w, ?_⟩
      rw [hledfin, lookupApplied_append, hw]
  have heta : { fin with probeTable := false } = fin := probe_false_eta fin hpt2
  have hens : ensure_schema_migrations fin = fin := ensure_eq_self fin hsome
  have hcl2 : classify_migrations (ledgerEntries (ensure_schema_migrations fin))
      (iter_sql_files dir) = .pending [] := by
    rw [hens]
    exact hpart1
  refine ⟨hpart1, ?_⟩
  have hmain2 := main_pending_eq interp2 clock2 false dir fin [] hfts2 hcl2
  rw [hmain2]
  simp only [List.isEmpty_nil, if_true, heta, hens]
  rfl

/-- C6 witness: two applied change-sets, then a second run. -/
theorem C6_second_run_witness :
    classify_migrations (ledgerEntries (main interpEx clockEx false dirTwo s0Fresh).1)
      (iter_sql_files dirTwo) = .pending []
    ∧ (main interpEx clockEx false dirTwo
        (main interpEx clockEx false dirTwo s0Fresh).1).2.1 = RunResult.upToDate := by
  have hb : (main interpEx clockEx false dirTwo s0Fresh).2.1 =
      RunResult.success ["0001.sql", "0002.sql"] := by decide
  have h : main interpEx clockEx false dirTwo s0Fresh =
      ((main interpEx clockEx false dirTwo s0Fresh).1,
       RunResult.success ["0001.sql", "0002.sql"],
       (main interpEx clockEx false dirTwo s0Fresh).2.2) := by
    rw [← hb]
  obtain ⟨h1, h2⟩ := C6_second_run_is_no_op interpEx interpEx clockEx clockEx dirTwo
    s0Fresh _ _ _ (by decide) h
  exact ⟨h1, by rw [h2]⟩

/-- C7 counterexample: on a fresh store (no `schema_migrations` table),
a dry run against one pending change-set prints the plan and executes
nothing — but `ensure_schema_migrations` has already created the empty
ledger table, so the store is not byte-identical to its state before the
call. -/
theorem C7_dry_run_not_byte_identical :
    (main interpEx clockEx true dirOne s0Fresh).2.1 = RunResult.dryRun ["0001.sql"]
    ∧ s0Fresh.ledger = none
    ∧ (main interpEx clockEx true dirOne s0Fresh).1.ledger = some []
    ∧ (main interpEx clockEx true dirOne s0Fresh).1 ≠ s0Fresh := by
  refine ⟨?_, ?_, ?_, ?_⟩ <;> decide

/-- C7 (amended): a dry run against a non-empty pending set reports
exactly the pending ids (all N of them, in order), executes no
statements and writes no ledger entry: the schema and the ledger rows
are unchanged — though the run still creates the empty ledger table
when it was absent (and transiently creates and drops the FTS5 probe
table), so "byte-identical" holds only up to those. -/
theorem C7_dry_run_reports_without_applying {Schema : Type}
    (interp : String → List (Schema → Option Schema)) (clock : Nat → String)
    (dir : List (String × String)) (s0 : Store Schema)
    (pending : List (String × String))
    (hfts : s0.fts5 = true)
    (hcl : classify_migrations (ledgerEntries (ensure_schema_migrations s0))
      (iter_sql_files dir) = .pending pending)
    (hne : pending ≠ []) :
    main interp clock true dir s0 =
      (ensure_schema_migrations { s0 with probeTable := false },
       RunResult.dryRun (pending.map (fun p => p.1)),
       [{ s0 with probeTable := true }, { s0 with probeTable := false },
        ensure_schema_migrations { s0 with probeTable := false }])
    ∧ (main interp clock true dir s0).1.schema = s0.schema
    ∧ ledgerEntries (main interp clock true dir s0).1 = ledgerEntries s0 := by
  have hmain := main_pending_eq interp clock true dir s0 pending hfts hcl
  have hemp : pending.isEmpty = false := by
    cases pending with
    | nil => exact absurd rfl hne
    | cons a l => rfl
  have h2 : main interp clock true dir s0 =
      (ensure_schema_migrations { s0 with probeTable := false },
       RunResult.dryRun (pending.map (fun p => p.1)),
       [{ s0 with probeTable := true }, { s0 with probeTable := false },
        ensure_schema_migrations { s0 with probeTable := false }]) := by
    rw [hmain]
    simp only [hemp, Bool.false_eq_true, if_false, if_true]
    rfl
  refine ⟨h2, ?_, ?_⟩
  · rw [h2]
    simp [ensure_schema]
  · rw [h2]
    simp [ensure_ledgerEntries, ledgerEntries_probe]

/-- C7 witness: dry run over one pending file on a store whose ledger
table exists. -/
theorem C7_dry_run_witness :
    (main interpEx clockEx true dirOne s0Led).2.1 = RunResult.dryRun ["0001.sql"]
    ∧ ledgerEntries (main interpEx clockEx true dirOne s0Led).1 = ledgerEntries s0Led := by
  obtain ⟨h1, h2, h3⟩ := C7_dry_run_reports_without_applying interpEx clockEx dirOne s0Led
    [("0001.sql", "good")] rfl (by decide) (by decide)
  exact ⟨by rw [h1]; rfl, h3⟩

/-- C8 counterexample: the claim says the preflight leaves no observable
side effect after completion.  But the probe is `CREATE VIRTUAL TABLE IF
NOT EXISTS __fts5_check ...` followed by `DROP TABLE __fts5_check`: on a
store that already contains a table named `__fts5_check`, the CREATE is
a no-op and the DROP then removes the pre-existing table — an obs.
side effect that survives the call. -/
theorem C8_preflight_drops_preexisting_table :
    assert_fts5_available sProbe =
      PreflightResult.ok [(⟨true, true, none, []⟩ : Store (List Nat)), ⟨true, false, none, []⟩]
        ⟨true, false, none, []⟩
    ∧ (⟨true, false, none, []⟩ : Store (List Nat)) ≠ sProbe := by
  constructor
  · decide
  · decide

/-- C8 (amended): provided no table named `__fts5_check` pre-exists, the
preflight leaves no observable side effect: on success the final store
equals the input store (the probe table is created and dropped within
the call), and on a missing capability the error is raised with the
store untouched; moreover `main` invokes the preflight before any ledger
or change-set work, so with the capability missing the run ends with the
store exactly as given and no durable state was ever produced. -/
theorem C8_preflight_frame {Schema : Type}
    (interp : String → List (Schema → Option Schema)) (clock : Nat → String)
    (dry : Bool) (dir : List (String × String)) (s : Store Schema)
    (hpt : s.probeTable = false) :
    (s.fts5 = true →
      assert_fts5_available s = .ok [{ s with probeTable := true }, s] s)
    ∧ (s.fts5 = false →
      main interp clock dry dir s = (s, RunResult.capabilityMissing, [])) := by
  constructor
  · intro h
    rw [assert_fts5_of_true s h, probe_false_eta s hpt]
  · intro h
    exact main_missing interp clock dry dir s h

/-- C8 witness: a clean store with FTS5, and a clean store without. -/
theorem C8_preflight_frame_witness :
    assert_fts5_available s0Led = .ok [{ s0Led with probeTable := true }, s0Led] s0Led
    ∧ main interpEx clockEx false dirOne sNoFts = (sNoFts, RunResult.capabilityMissing, []) :=
  ⟨(C8_preflight_frame interpEx clockEx false dirOne s0Led rfl).1 rfl,
   (C8_preflight_frame interpEx clockEx false dirOne sNoFts rfl).2 rfl⟩

/-- C9: the change-set source matches the ".sql" suffix
case-insensitively (the file name is lowercased before the suffix test,
so ".SQL" and ".Sql" files are enumerated), while the returned list is
sorted by the original, non-lowercased names. -/
theorem C9_suffix_case_insensitive (dir : List (String × String)) :
    (iter_sql_files dir).Pairwise (fun a b => a.1 ≤ b.1)
    ∧ (∀ f : String × String,
        f ∈ iter_sql_files dir ↔ f ∈ dir ∧ strEndsWith (strToLower f.1) ".sql" = true)
    ∧ strEndsWith (strToLower "A.SQL") ".sql" = true
    ∧ strEndsWith (strToLower "b.Sql") ".sql" = true
    ∧ strEndsWith (strToLower "c.txt") ".sql" = false := by
  refine ⟨iter_sorted dir, fun f => iter_mem dir f, by decide, by decide, by decide⟩

/-- C10: the collaborator card search uses the FTS5 path only when the
stripped query has length at least 3 — below that it performs exactly
one LIKE query; and when the FTS5 path raises OperationalError or
returns zero rows, the function silently falls back to the LIKE query
and returns its rows (with the FTS query attempted first, then the LIKE
query). -/
theorem C10_search_fallback {RowT : Type} (db : CardDB RowT) (q : String)
    (limit offset : Nat) :
    ((strTrim q).length < 3 →
      search_cards db q limit offset =
        (db.like ("%" ++ strTrim q ++ "%") limit offset,
         [SearchEv.likeQuery ("%" ++ strTrim q ++ "%")]))
    ∧ (3 ≤ (strTrim q).length →
      (db.fts (strTrim q ++ "*") limit offset = none ∨
        db.fts (strTrim q ++ "*") limit offset = some []) →
      search_cards db q limit offset =
        (db.like ("%" ++ strTrim q ++ "%") limit offset,
         [SearchEv.ftsQuery (strTrim q ++ "*"), SearchEv.likeQuery ("%" ++ strTrim q ++ "%")])) := by
  constructor
  · intro h
    have h3 : ¬ 3 ≤ (strTrim q).length := by omega
    simp [search_cards, h3]
  · intro h3 hf
    rcases hf with hf | hf
    · simp [search_cards, h3, hf]
    · simp [search_cards, h3, hf]

/-- C10 witness: a short query never touches FTS; an erroring FTS and an
empty FTS result both fall back to LIKE. -/
theorem C10_search_fallback_witness :
    search_cards dbNoFts " ab " 50 0 = ([7], [SearchEv.likeQuery "%ab%"])
    ∧ search_cards dbNoFts "abc" 50 0 =
        ([7], [SearchEv.ftsQuery "abc*", SearchEv.likeQuery "%abc%"])
    ∧ search_cards dbEmptyFts "abc" 50 0 =
        ([7], [SearchEv.ftsQuery "abc*", SearchEv.likeQuery "%abc%"]) := by
  refine ⟨?_, ?_, ?_⟩
  · have h := (C10_search_fallback dbNoFts " ab " 50 0).1 (by decide)
    rw [h]
    decide
  · have h := (C10_search_fallback dbNoFts "abc" 50 0).2 (by decide) (Or.inl rfl)
    rw [h]
    decide
  · have h := (C10_search_fallback dbEmptyFts "abc" 50 0).2 (by decide) (Or.inr rfl)
    rw [h]
    decide
